import Mathlib

/-!
# Verification of the Crate adapter's translation core

Shallow embedding of `server.go` from the `crate_adapter` repository:
the Prometheus remote read/write to Crate SQL translation layer.

Modelling conventions:
* Go `float64` sample values are represented by their IEEE-754 bit
  pattern, a natural number `< 2^64` (`math.Float64bits` is then the
  identity, `math.Float64frombits` the identity in the other direction);
  the human-readable `fmt.Sprintf` rendering of a float is an opaque
  parameter `fmtFloat : Nat → String`.
* Go `int64` values are `Int`; the `int64 <-> uint64` bit
  reinterpretations are `toInt64From` / `toUInt64From`.
* The external regex engine (`regexp.MatchString pattern ""`) is an
  oracle parameter `re : String → Except String Bool`: `.error e` is a
  compile error, `.ok b` says whether the pattern matches the empty
  string.
* Go's `(T, error)` returns are `T × Option String`; a Go runtime panic
  is `Except.error ()`.
-/

namespace CrateAdapter

/-! ## Label escaping (`escaper`, `escapeLabelName`, `escapeLabelValue`) -/

/-- The apostrophe / single-quote character. -/
def squote : Char := Char.ofNat 39

/-- One step of `strings.NewReplacer("\\", "\\\\", "\"", "\\\"", "'", "\\'")`:
each backslash, double quote or single quote gets a backslash put in
front of it; the replacer scans left to right over single characters. -/
def escChar (c : Char) : List Char :=
  if c = '\\' ∨ c = '"' ∨ c = squote then ['\\', c] else [c]

/-- `escaper.Replace` from the source: escape every special character. -/
def escaper (s : String) : String :=
  ⟨s.data.flatMap escChar⟩

/-- Escape a labelname for use in SQL as a column name (`"l" + escaped + "\""`). -/
def escapeLabelName (s : String) : String :=
  "\"l" ++ escaper s ++ "\""

/-- Escape a labelvalue for use in SQL as a string value. -/
def escapeLabelValue (s : String) : String :=
  String.singleton squote ++ escaper s ++ String.singleton squote

/-- Modelled from the spec: the store's string-literal syntax reads a
backslash followed by any character as that character; unescaping undoes
the escaping layer.  (The store itself is an external collaborator; only
its literal syntax is described by the spec.) -/
def unescapeChars : List Char → List Char
  | [] => []
  | [c] => [c]
  | c :: c2 :: rest =>
    if c = '\\' then c2 :: unescapeChars rest else c :: unescapeChars (c2 :: rest)

/-- Unescaping through the store's literal syntax, on strings. -/
def unescapeLiteral (s : String) : String :=
  ⟨unescapeChars s.data⟩

/-! ## int64 / uint64 bit reinterpretation

`int64(math.Float64bits(v))` on the write path and
`math.Float64frombits(uint64(val))` on the read path.  A `float64` is
represented by its bit pattern (a `Nat < 2^64`), so the two casts are
the whole encode/decode pair. -/

/-- Reinterpret a 64-bit pattern (as produced by `math.Float64bits`) as a
signed `int64`, the Go conversion `int64(u)`. -/
def toInt64From (n : Nat) : Int :=
  if n < 2 ^ 63 then (n : Int) else (n : Int) - 2 ^ 64

/-- Reinterpret an `int64` as a `uint64` bit pattern, the Go conversion
`uint64(i)`. -/
def toUInt64From (i : Int) : Nat :=
  (i % (2 ^ 64 : Int)).toNat

/-! ## `strconv.ParseInt(s, 10, 64)`, as called by `json.Number.Int64()`

Returns the Go pair `(int64, error)`: `(value, true)` on success and
`(0, false)` on a syntax error; on a range error the value is clamped to
`math.MinInt64` / `math.MaxInt64` and the flag is `false`. -/

/-- Accumulate a decimal digit string into a natural number. -/
def digitsToNat (cs : List Char) : Nat :=
  cs.foldl (fun acc c => acc * 10 + (c.toNat - 48)) 0

/-- Parse an unsigned run of decimal digits (at least one). -/
def parseUnsigned (cs : List Char) : Option Nat :=
  if cs ≠ [] ∧ cs.all Char.isDigit then some (digitsToNat cs) else none

/-- `strconv.ParseInt(s, 10, 64)`: `(value, ok)`. -/
def parseInt64 (s : String) : Int × Bool :=
  match s.data with
  | [] => (0, false)
  | c :: rest =>
    let body := if c = '-' ∨ c = '+' then rest else c :: rest
    match parseUnsigned body with
    | none => (0, false)
    | some n =>
      if c = '-' then
        if n ≤ 2 ^ 63 then (-(n : Int), true) else (-(2 ^ 63 : Int), false)
      else
        if n ≤ 2 ^ 63 - 1 then ((n : Int), true) else ((2 ^ 63 : Int) - 1, false)

/-! ## Data model: matchers and queries (`remote.Query`) -/

/-- `remote.MatchType`: the four Prometheus label-matcher kinds. -/
inductive MatchType
  | equal
  | notEqual
  | regexMatch
  | regexNoMatch
deriving DecidableEq, Repr

/-- `remote.LabelMatcher` (`Type` is spelled `mtype`). -/
structure LabelMatcher where
  name : String
  value : String
  mtype : MatchType
deriving DecidableEq, Repr

/-- `remote.Query`. -/
structure Query where
  matchers : List LabelMatcher
  startTimestampMs : Int
  endTimestampMs : Int
deriving DecidableEq, Repr

/-- `fmt.Sprintf("%d", i)` for an `int64`. -/
def intToDec (i : Int) : String := toString i

/-! ## `queryToSQL` -/

/-- The body of the `switch` over one matcher inside `queryToSQL`:
either the single parenthesized SQL predicate appended to `selectors`,
or the regex-compile error that aborts the translation.
`re` is the external regex-engine oracle (does the pattern match `""`?). -/
def matcherToSelector (re : String → Except String Bool) (m : LabelMatcher) :
    Except String String :=
  match m.mtype with
  | .equal =>
    if m.value = "" then
      .ok ("(" ++ escapeLabelName m.name ++ " IS NULL)")
    else
      .ok ("(" ++ escapeLabelName m.name ++ " = " ++ escapeLabelValue m.value ++ ")")
  | .notEqual =>
    if m.value = "" then
      .ok ("(" ++ escapeLabelName m.name ++ " IS NOT NULL)")
    else
      .ok ("(" ++ escapeLabelName m.name ++ " != " ++ escapeLabelValue m.value ++ ")")
  | .regexMatch => do
    let r := "^(?:" ++ m.value ++ ")$"
    let matchesEmpty ← re r
    if matchesEmpty then
      .ok ("(" ++ escapeLabelName m.name ++ " ~ " ++ escapeLabelValue r ++ " OR " ++
        escapeLabelName m.name ++ " IS NULL)")
    else
      .ok ("(" ++ escapeLabelName m.name ++ " ~ " ++ escapeLabelValue r ++ ")")
  | .regexNoMatch => do
    let r := "^(?:" ++ m.value ++ ")$"
    let matchesEmpty ← re r
    if matchesEmpty then
      .ok ("(" ++ escapeLabelName m.name ++ " !~ " ++ escapeLabelValue r ++ ")")
    else
      .ok ("(" ++ escapeLabelName m.name ++ " !~ " ++ escapeLabelValue r ++ " OR " ++
        escapeLabelName m.name ++ " IS NULL)")

/-- The `for _, m := range q.Matchers` loop of `queryToSQL`: the matcher
predicates in matcher order, or the first regex error. -/
def selectorsOf (re : String → Except String Bool) :
    List LabelMatcher → Except String (List String)
  | [] => .ok []
  | m :: ms => do
    let s ← matcherToSelector re m
    let ss ← selectorsOf re ms
    .ok (s :: ss)

/-- `queryToSQL`, returning the Go pair `(string, error)`.  On success
the error is `none`; on a regex error the statement is the empty string. -/
def queryToSQL (re : String → Except String Bool) (q : Query) : String × Option String :=
  match selectorsOf re q.matchers with
  | .error e => ("", some e)
  | .ok sels =>
    let selectors := sels ++
      ["(timestamp <= " ++ intToDec q.endTimestampMs ++ ")",
       "(timestamp >= " ++ intToDec q.startTimestampMs ++ ")"]
    ("SELECT * from metrics WHERE " ++ String.intercalate " AND " selectors ++
      " ORDER BY timestamp", none)

/-- Modelled from the spec: the matcher-to-predicate table of §4.2, one
row per match type, split on `value == ""`, with the regex rows keyed on
whether the anchored pattern `^(?:value)$` matches the empty string. -/
def matcherPredicateSpec (re : String → Except String Bool) (m : LabelMatcher) :
    Except String String :=
  let col := escapeLabelName m.name
  let anchored := "^(?:" ++ m.value ++ ")$"
  match m.mtype with
  | .equal =>
    .ok (if m.value = "" then "(" ++ col ++ " IS NULL)"
      else "(" ++ col ++ " = " ++ escapeLabelValue m.value ++ ")")
  | .notEqual =>
    .ok (if m.value = "" then "(" ++ col ++ " IS NOT NULL)"
      else "(" ++ col ++ " != " ++ escapeLabelValue m.value ++ ")")
  | .regexMatch =>
    (re anchored).map fun matchesEmpty =>
      if matchesEmpty then
        "(" ++ col ++ " ~ " ++ escapeLabelValue anchored ++ " OR " ++ col ++ " IS NULL)"
      else
        "(" ++ col ++ " ~ " ++ escapeLabelValue anchored ++ ")"
  | .regexNoMatch =>
    (re anchored).map fun matchesEmpty =>
      if matchesEmpty then
        "(" ++ col ++ " !~ " ++ escapeLabelValue anchored ++ ")"
      else
        "(" ++ col ++ " !~ " ++ escapeLabelValue anchored ++ " OR " ++ col ++ " IS NULL)"

/-- Matcher predicates per the spec table, over a whole matcher list. -/
def selectorsSpec (re : String → Except String Bool) :
    List LabelMatcher → Except String (List String)
  | [] => .ok []
  | m :: ms => do
    let s ← matcherPredicateSpec re m
    let ss ← selectorsSpec re ms
    .ok (s :: ss)

/-! ## Data model: time series, write requests, Crate requests -/

/-- `remote.LabelPair`. -/
@[ext]
structure LabelPair where
  name : String
  value : String
deriving DecidableEq, Repr

/-- `remote.Sample`; the `float64` field `Value` is represented by its
IEEE-754 bit pattern `valueBits`. -/
structure Sample where
  valueBits : Nat
  timestampMs : Int
deriving DecidableEq, Repr

/-- `remote.TimeSeries`. -/
structure TimeSeries where
  labels : List LabelPair
  samples : List Sample
deriving DecidableEq, Repr

/-- `remote.WriteRequest`. -/
structure WriteRequest where
  timeseries : List TimeSeries
deriving DecidableEq, Repr

/-- One scalar in a bulk-argument row (a JSON value sent to Crate):
a SQL NULL marker, a string, or an integer. -/
inductive Arg
  | null
  | str (s : String)
  | int (i : Int)
deriving DecidableEq, Repr

/-- `crateRequest`: the statement plus its bulk argument rows. -/
structure CrateRequest where
  stmt : String
  bulkArgs : List (List Arg)
deriving DecidableEq, Repr

/-- The read-path request `crateRequest{Stmt: query}` built in `runQuery`:
the `BulkArgs` field is left at its zero value (no bound parameters). -/
def readRequest (sql : String) : CrateRequest :=
  { stmt := sql, bulkArgs := [] }

/-! ## Association lists standing in for Go `map[string]string` -/

/-- Insert into a Go `map[string]string` modelled as an association
list: overwrite in place when the key exists, append otherwise. -/
def insertLabel : List LabelPair → String → String → List LabelPair
  | [], k, v => [⟨k, v⟩]
  | p :: rest, k, v =>
    if p.name = k then ⟨k, v⟩ :: rest else p :: insertLabel rest k v

/-- Look a key up in the modelled map. -/
def lookupLabel : List LabelPair → String → Option String
  | [], _ => none
  | p :: rest, k => if p.name = k then some p.value else lookupLabel rest k

/-- Go map read with the zero-value default: `metric[l]` is `""` when
the key is absent. -/
def lookupDefault (m : List LabelPair) (k : String) : String :=
  (lookupLabel m k).getD ""

/-- The invariant of a modelled `map[string]string`: no duplicate keys. -/
abbrev NamesNodup (m : List LabelPair) : Prop :=
  (m.map (·.name)).Nodup

/-- The label set of one series, `map[string]string` built from
`ts.Labels` (a later duplicate name overwrites an earlier one). -/
def metricOf (labels : List LabelPair) : List LabelPair :=
  labels.foldl (fun m p => insertLabel m p.name p.value) []

/-- Deduplicate a key list, modelling the key set of a Go
`map[string]struct{}` (iteration order is irrelevant here, the caller
sorts). -/
def dedupKeys : List String → List String
  | [] => []
  | k :: ks =>
    if k ∈ dedupKeys ks then dedupKeys ks else k :: dedupKeys ks

/-! ## `writesToCrateRequest` -/

/-- The sorted union of all label names used in the batch (`labelsUsed`
then `sort.Strings(labels)` in the source). -/
def unionNames (req : WriteRequest) : List String :=
  List.insertionSort (fun a b => a ≤ b)
    (dedupKeys (req.timeseries.flatMap fun ts => ts.labels.map (·.name)))

/-- `writesToCrateRequest`.  `fmtFloat` is the external
`fmt.Sprintf("%f", v)` rendering of the float with the given bit
pattern. -/
def writesToCrateRequest (fmtFloat : Nat → String) (req : WriteRequest) : CrateRequest :=
  let labels := unionNames req
  let escapedLabels := labels.map escapeLabelName
  let stmt := "INSERT INTO metrics (" ++ String.intercalate ", " escapedLabels ++
    ", \"value\", \"valueRaw\", \"timestamp\") VALUES (" ++
    String.join (List.replicate labels.length "?, ") ++ " ?, ?, ?)"
  let bulkArgs := req.timeseries.flatMap fun ts =>
    let metric := metricOf ts.labels
    ts.samples.map fun s =>
      (labels.map fun l =>
        if lookupDefault metric l = "" then Arg.null
        else Arg.str (lookupDefault metric l)) ++
      [Arg.str (fmtFloat s.valueBits),
       Arg.int (toInt64From s.valueBits),
       Arg.int s.timestampMs]
  { stmt := stmt, bulkArgs := bulkArgs }

/-! ## Read path: result tables and `responseToTimeseries` -/

/-- One cell of the store's JSON response (`interface{}` decoded with
`decoder.UseNumber()`): JSON null, a string, or a numeric token. -/
inductive Cell
  | null
  | str (s : String)
  | num (tok : String)
deriving DecidableEq, Repr

/-- `crateResponse`: column names plus rows of cells. -/
structure CrateResponse where
  cols : List String
  rows : List (List Cell)
deriving DecidableEq, Repr

/-- The per-row decoding state: the label set, the value bits, the
timestamp (`metric`, `v`, `t` in the source; `v` as its bit pattern,
initially the bits of `0.0`). -/
abbrev RowData := List LabelPair × Nat × Int

/-- The `for i, value := range row` loop of `responseToTimeseries`:
label columns (first byte `'l'`, non-null cell) extend the label set,
`timestamp` and `valueRaw` cells are parsed as `json.Number.Int64()`
with the error discarded.  A Go panic — failed type assertion
(`value.(string)`, `value.(json.Number)`), column index out of range,
or `column[0]` on an empty column name — is `.error ()`. -/
def procCells : List String → List Cell → RowData → Except Unit RowData
  | _, [], st => .ok st
  | [], _ :: _, _ => .error ()
  | col :: cols, c :: cs, st =>
    match col.data with
    | [] => .error ()
    | ch :: _ =>
      if ch = 'l' then
        match c with
        | .null => procCells cols cs st
        | .str s => procCells cols cs (insertLabel st.1 (col.drop 1) s, st.2.1, st.2.2)
        | .num _ => .error ()
      else if col = "timestamp" then
        match c with
        | .num tok => procCells cols cs (st.1, st.2.1, (parseInt64 tok).1)
        | _ => .error ()
      else if col = "valueRaw" then
        match c with
        | .num tok => procCells cols cs (st.1, toUInt64From (parseInt64 tok).1, st.2.2)
        | _ => .error ()
      else procCells cols cs st

/-- Name-then-value lexicographic order on label pairs; on label sets
with distinct names this is exactly "sorted alphabetically by name". -/
def pairLe (p q : LabelPair) : Prop :=
  p.name < q.name ∨ (p.name = q.name ∧ p.value ≤ q.value)

instance : DecidableRel pairLe := fun p q => by
  unfold pairLe; infer_instance

instance : IsTotal LabelPair pairLe :=
  ⟨fun p q => by
    unfold pairLe
    rcases lt_trichotomy p.name q.name with h | h | h
    · exact Or.inl (Or.inl h)
    · rcases le_total p.value q.value with hv | hv
      · exact Or.inl (Or.inr ⟨h, hv⟩)
      · exact Or.inr (Or.inr ⟨h.symm, hv⟩)
    · exact Or.inr (Or.inl h)⟩

instance : IsTrans LabelPair pairLe :=
  ⟨fun a b c hab hbc => by
    unfold pairLe at hab hbc ⊢
    rcases hab with h1 | ⟨e1, v1⟩ <;> rcases hbc with h2 | ⟨e2, v2⟩
    · exact Or.inl (h1.trans h2)
    · exact Or.inl (by rw [← e2]; exact h1)
    · exact Or.inl (by rw [e1]; exact h2)
    · exact Or.inr ⟨e1.trans e2, v1.trans v2⟩⟩

instance : IsAntisymm LabelPair pairLe :=
  ⟨fun a b hab hba => by
    unfold pairLe at hab hba
    rcases hab with h1 | ⟨e1, v1⟩ <;> rcases hba with h2 | ⟨e2, v2⟩
    · exact absurd (h1.trans h2) (lt_irrefl _)
    · rw [e2] at h1; exact absurd h1 (lt_irrefl _)
    · rw [e1] at h2; exact absurd h2 (lt_irrefl _)
    · exact LabelPair.ext e1 (le_antisymm v1 v2)⟩

/-- A label set arranged in canonical (name-sorted) order. -/
def sortPairs (m : List LabelPair) : List LabelPair :=
  List.insertionSort pairLe m

/-- Modelled from the spec: `model.Metric.String()` from the external
Prometheus library serves as the canonical grouping key of a label set;
the spec calls it "a canonical string key (sorted label set)", so the
key is the name-sorted label list, serialized. -/
def metricKey (m : List LabelPair) : String :=
  String.intercalate "," ((sortPairs m).map fun p => p.name ++ "=" ++ p.value)

/-- Series labels as built on first sight of a key: collect the label
names, sort them (`sort.Strings(labelnames)`), and look each one up. -/
def labelsOf (m : List LabelPair) : List LabelPair :=
  (List.insertionSort (fun a b : String => a ≤ b) (m.map (·.name))).filterMap
    fun k => (lookupLabel m k).map fun v => ⟨k, v⟩

/-- The sample appended for one row (`&remote.Sample{Value: v, TimestampMs: t}`). -/
def sampleOf (d : RowData) : Sample := ⟨d.2.1, d.2.2⟩

/-- The grouping key of one decoded row. -/
def rowKey (d : RowData) : String := metricKey d.1

/-- The grouping key a finished series answers to. -/
def seriesKey (ts : TimeSeries) : String := metricKey ts.labels

/-- Lookup in the `map[string]*remote.TimeSeries`, modelled as an
insertion-ordered association list. -/
def lookupTS : List (String × TimeSeries) → String → Option TimeSeries
  | [], _ => none
  | (k, ts) :: rest, key => if k = key then some ts else lookupTS rest key

/-- In-place value replacement in the modelled map. -/
def updateTS : List (String × TimeSeries) → String → TimeSeries →
    List (String × TimeSeries)
  | [], _, _ => []
  | (k, ts) :: rest, key, ts' =>
    if k = key then (k, ts') :: rest else (k, ts) :: updateTS rest key ts'

/-- One iteration of the row loop after decoding: look the canonical key
up, append the sample; on first sight create the series with its label
names sorted. -/
def accInsert (acc : List (String × TimeSeries)) (d : RowData) :
    List (String × TimeSeries) :=
  match lookupTS acc (rowKey d) with
  | some ts => updateTS acc (rowKey d) ⟨ts.labels, ts.samples ++ [sampleOf d]⟩
  | none => acc ++ [(rowKey d, ⟨labelsOf d.1, [sampleOf d]⟩)]

/-- The whole row loop: decode each row, feed it to the map. -/
def buildAcc (cols : List String) :
    List (List Cell) → List (String × TimeSeries) →
    Except Unit (List (String × TimeSeries))
  | [], acc => .ok acc
  | row :: rest, acc => do
    let d ← procCells cols row ([], 0, 0)
    buildAcc cols rest (accInsert acc d)

/-- `responseToTimeseries`: run the row loop, then emit the series in
sorted key order (`sort.Strings(names)`). -/
def responseToTimeseries (resp : CrateResponse) : Except Unit (List TimeSeries) := do
  let acc ← buildAcc resp.cols resp.rows []
  let names := List.insertionSort (fun a b : String => a ≤ b) (acc.map (·.1))
  .ok (names.filterMap (lookupTS acc))

/-- The decoded rows on their own (specification-side view of the loop). -/
def rowDataAll (cols : List String) : List (List Cell) → Except Unit (List RowData)
  | [] => .ok []
  | row :: rest => do
    let d ← procCells cols row ([], 0, 0)
    let ds ← rowDataAll cols rest
    .ok (d :: ds)

/-! ## `runQuery` -/

/-- The outcome of `ca.client.Post`: a transport error, or a response
with a status code and a body. -/
inductive PostResult
  | fail (e : String)
  | resp (status : Nat) (body : String)
deriving DecidableEq, Repr

/-- `runQuery`.  `post` is the HTTP POST to the store, `decodeBody` the
external JSON decoding of the response body (`json.Marshal` of the
request itself cannot fail for this struct and is elided).  The Go pair
`([]*remote.TimeSeries, error)` is the `.ok` payload; a panic inside
`responseToTimeseries` is the outer `.error ()`.  On a non-OK status the
source executes `return nil, err`, and `err` is necessarily `nil` on
that path (the `if err != nil` just above already returned), so this
branch yields `([], none)`. -/
def runQuery (re : String → Except String Bool) (post : String → PostResult)
    (decodeBody : String → Except String CrateResponse) (q : Query) :
    Except Unit (List TimeSeries × Option String) :=
  match queryToSQL re q with
  | (_, some e) => .ok ([], some e)
  | (sql, none) =>
    match post sql with
    | .fail e => .ok ([], some e)
    | .resp status body =>
      if status ≠ 200 then .ok ([], none)
      else
        match decodeBody body with
        | .error e => .ok ([], some e)
        | .ok data => (responseToTimeseries data).map fun ts => (ts, none)

end CrateAdapter

namespace CrateAdapter

/-! ## First theorems: escaping round-trip, bit round-trip, matcher table -/

theorem escChar_ne_nil (c : Char) : escChar c ≠ [] := by
  unfold escChar; split <;> simp

theorem flatMap_escChar_eq_nil {cs : List Char} (h : cs.flatMap escChar = []) :
    cs = [] := by
  cases cs with
  | nil => rfl
  | cons c rest =>
    rw [List.flatMap_cons, List.append_eq_nil] at h
    exact absurd h.1 (escChar_ne_nil c)

theorem unescapeChars_escape (cs : List Char) :
    unescapeChars (cs.flatMap escChar) = cs := by
  induction cs with
  | nil => rfl
  | cons c rest ih =>
    rw [List.flatMap_cons]
    by_cases h : c = '\\' ∨ c = '"' ∨ c = squote
    · rw [escChar, if_pos h]
      simp [List.cons_append, List.nil_append, unescapeChars, ih]
    · rw [escChar, if_neg h]
      have hc : c ≠ '\\' := fun hc => h (Or.inl hc)
      cases heq : (rest.flatMap escChar) with
      | nil =>
        have : rest = [] := flatMap_escChar_eq_nil heq
        subst this
        simp [unescapeChars]
      | cons d tl =>
        rw [heq] at ih
        simp only [List.singleton_append, unescapeChars, if_neg hc, ih]

theorem unescapeLiteral_escaper (s : String) : unescapeLiteral (escaper s) = s := by
  cases s with
  | mk data => exact congrArg String.mk (unescapeChars_escape data)

/-- C9: escaping a label name or value (backslash-prefixing every
backslash and quote character) and unescaping through the store's
literal syntax recovers the original string, and the escaping
replacement is injective. -/
theorem escaper_roundtrip_and_injective :
    (∀ s : String, unescapeLiteral (escaper s) = s) ∧ Function.Injective escaper :=
  ⟨unescapeLiteral_escaper, Function.LeftInverse.injective unescapeLiteral_escaper⟩

/-- C2: for every 64-bit IEEE-754 pattern (NaN, infinities included),
encoding it as the write path does (`int64(math.Float64bits(v))`) and
decoding it as the read path does (`math.Float64frombits(uint64(i))`)
recovers the exact original bit pattern. -/
theorem float_bits_roundtrip (n : Nat) (h : n < 2 ^ 64) :
    toUInt64From (toInt64From n) = n := by
  unfold toInt64From toUInt64From
  split <;> omega

theorem float_bits_roundtrip_witness :
    9221120237041090560 < 2 ^ 64 ∧
      toUInt64From (toInt64From 9221120237041090560) = 9221120237041090560 :=
  ⟨by norm_num, float_bits_roundtrip 9221120237041090560 (by norm_num)⟩

theorem matcherToSelector_eq_spec (re : String → Except String Bool) (m : LabelMatcher) :
    matcherToSelector re m = matcherPredicateSpec re m := by
  obtain ⟨name, value, mtype⟩ := m
  cases mtype <;>
    cases hre : re ("^(?:" ++ value ++ ")$") <;>
      simp [matcherToSelector, matcherPredicateSpec, hre, bind, Except.bind,
        Except.map, apply_ite] <;>
      split <;> simp_all

/-- C1: for every label matcher, `queryToSQL`'s switch emits exactly the
single parenthesized predicate given by the spec's table: `EQUAL` maps
to `IS NULL` / `= 'value'`, `NOT_EQUAL` to `IS NOT NULL` / `!= 'value'`,
and the regex match types anchor the pattern as `^(?:value)$` and add
`OR col IS NULL` exactly when the table says so, keyed on whether the
anchored pattern matches the empty string. -/
theorem matcherToSelector_follows_spec_table (re : String → Except String Bool)
    (m : LabelMatcher) : matcherToSelector re m = matcherPredicateSpec re m :=
  matcherToSelector_eq_spec re m

theorem selectorsOf_eq_spec (re : String → Except String Bool) (ms : List LabelMatcher) :
    selectorsOf re ms = selectorsSpec re ms := by
  induction ms with
  | nil => rfl
  | cons m rest ih =>
    simp only [selectorsOf, selectorsSpec, matcherToSelector_eq_spec, ih]

/-- C3: whenever every matcher translates (per the spec's table) to the
predicate list `sels`, `queryToSQL` returns the statement
`SELECT * from metrics WHERE <sels> AND (timestamp <= end) AND
(timestamp >= start) ORDER BY timestamp` joined by `AND` in matcher
order, with no error, and the read request built from it carries no
bound parameters. -/
theorem queryToSQL_statement_shape (re : String → Except String Bool) (q : Query)
    (sels : List String) (h : selectorsSpec re q.matchers = .ok sels) :
    queryToSQL re q =
      ("SELECT * from metrics WHERE " ++
        String.intercalate " AND "
          (sels ++ ["(timestamp <= " ++ intToDec q.endTimestampMs ++ ")",
            "(timestamp >= " ++ intToDec q.startTimestampMs ++ ")"]) ++
        " ORDER BY timestamp", none) ∧
      (readRequest (queryToSQL re q).1).bulkArgs = [] := by
  have h' : selectorsOf re q.matchers = .ok sels := by
    rw [selectorsOf_eq_spec]; exact h
  constructor
  · simp only [queryToSQL, h']
  · rfl

theorem queryToSQL_statement_shape_witness :
    selectorsSpec (fun _ => .ok true) (Query.mk [⟨"job", "x", .equal⟩] 1000 2000).matchers =
      .ok ["(" ++ escapeLabelName "job" ++ " = " ++ escapeLabelValue "x" ++ ")"] ∧
    queryToSQL (fun _ => .ok true) (Query.mk [⟨"job", "x", .equal⟩] 1000 2000) =
      ("SELECT * from metrics WHERE " ++
        String.intercalate " AND "
          (["(" ++ escapeLabelName "job" ++ " = " ++ escapeLabelValue "x" ++ ")"] ++
            ["(timestamp <= " ++ intToDec 2000 ++ ")",
             "(timestamp >= " ++ intToDec 1000 ++ ")"]) ++
        " ORDER BY timestamp", none) ∧
      (readRequest (queryToSQL (fun _ => .ok true)
        (Query.mk [⟨"job", "x", .equal⟩] 1000 2000)).1).bulkArgs = [] :=
  ⟨by rfl, queryToSQL_statement_shape (fun _ => .ok true) _ _ (by rfl)⟩

theorem selectorsOf_error_of_bad_regex (re : String → Except String Bool)
    (ms : List LabelMatcher)
    (h : ∃ m ∈ ms, (m.mtype = .regexMatch ∨ m.mtype = .regexNoMatch) ∧
      ∀ b : Bool, re ("^(?:" ++ m.value ++ ")$") ≠ .ok b) :
    ∃ e, selectorsOf re ms = .error e := by
  induction ms with
  | nil => obtain ⟨m, hm, _⟩ := h; exact absurd hm (List.not_mem_nil m)
  | cons m0 rest ih =>
    obtain ⟨m, hm, hty, hbad⟩ := h
    rcases List.mem_cons.mp hm with heq | hmem
    · subst heq
      cases hre : re ("^(?:" ++ m.value ++ ")$") with
      | ok b => exact absurd hre (hbad b)
      | error e =>
        refine ⟨e, ?_⟩
        rcases hty with hty | hty <;>
          simp [selectorsOf, matcherToSelector, hty, hre, bind, Except.bind]
    · cases hsel : matcherToSelector re m0 with
      | error e => exact ⟨e, by simp [selectorsOf, hsel, bind, Except.bind]⟩
      | ok s =>
        obtain ⟨e, he⟩ := ih ⟨m, hmem, hty, hbad⟩
        exact ⟨e, by simp [selectorsOf, hsel, he, bind, Except.bind]⟩

/-- C8: a query containing a regex matcher whose anchored pattern the
regex engine rejects fails the whole translation: `queryToSQL` returns
the empty statement together with the error; no partial SQL is emitted. -/
theorem queryToSQL_invalid_regex_aborts (re : String → Except String Bool) (q : Query)
    (h : ∃ m ∈ q.matchers, (m.mtype = .regexMatch ∨ m.mtype = .regexNoMatch) ∧
      ∀ b : Bool, re ("^(?:" ++ m.value ++ ")$") ≠ .ok b) :
    ∃ e, queryToSQL re q = ("", some e) := by
  obtain ⟨e, he⟩ := selectorsOf_error_of_bad_regex re q.matchers h
  exact ⟨e, by simp [queryToSQL, he]⟩

theorem queryToSQL_invalid_regex_aborts_witness :
    ∃ e, queryToSQL (fun _ => .error "bad pattern")
      (Query.mk [⟨"job", "(", .regexMatch⟩] 0 0) = ("", some e) :=
  queryToSQL_invalid_regex_aborts (fun _ => .error "bad pattern")
    (Query.mk [⟨"job", "(", .regexMatch⟩] 0 0)
    ⟨⟨"job", "(", .regexMatch⟩, List.mem_singleton.mpr rfl, Or.inl rfl,
      fun _ hb => Except.noConfusion hb⟩

/-! ## Theorems about the write builder -/

theorem dedupKeys_nodup (l : List String) : (dedupKeys l).Nodup := by
  induction l with
  | nil => exact List.nodup_nil
  | cons k ks ih =>
    simp only [dedupKeys]
    split
    · exact ih
    · exact List.Nodup.cons (by assumption) ih

theorem mem_dedupKeys {a : String} {l : List String} : a ∈ dedupKeys l ↔ a ∈ l := by
  induction l with
  | nil => simp [dedupKeys]
  | cons k ks ih =>
    simp only [dedupKeys]
    split
    · next hk =>
      rw [List.mem_cons, ih]
      constructor
      · exact Or.inr
      · rintro (rfl | h)
        · exact ih.mp hk
        · exact h
    · rw [List.mem_cons, List.mem_cons, ih]

theorem unionNames_sorted (req : WriteRequest) :
    List.Sorted (fun a b : String => a ≤ b) (unionNames req) :=
  List.sorted_insertionSort _ _

theorem unionNames_nodup (req : WriteRequest) : (unionNames req).Nodup :=
  (List.perm_insertionSort _ _).nodup_iff.mpr (dedupKeys_nodup _)

theorem mem_unionNames {n : String} {req : WriteRequest} :
    n ∈ unionNames req ↔ ∃ ts ∈ req.timeseries, ∃ p ∈ ts.labels, p.name = n := by
  unfold unionNames
  rw [List.mem_insertionSort, mem_dedupKeys, List.mem_flatMap]
  constructor
  · rintro ⟨ts, hts, hn⟩
    obtain ⟨p, hp, rfl⟩ := List.mem_map.mp hn
    exact ⟨ts, hts, p, hp, rfl⟩
  · rintro ⟨ts, hts, p, hp, rfl⟩
    exact ⟨ts, hts, List.mem_map.mpr ⟨p, hp, rfl⟩⟩

theorem argOfLabel_eq (m : List LabelPair) (l : String) :
    (if lookupDefault m l = "" then Arg.null else Arg.str (lookupDefault m l)) =
      (match lookupLabel m l with
        | some v => if v = "" then Arg.null else Arg.str v
        | none => Arg.null) := by
  cases h : lookupLabel m l <;> simp [lookupDefault, h]

/-- C5: the write builder emits the sorted label-name union as the
column list (escaped, followed by the fixed `value`, `valueRaw`,
`timestamp` columns) and one argument row per (series, sample) pair,
each row carrying, for every union label, the series' value when
present and non-empty and a NULL marker otherwise, then the formatted
decimal value string, the raw IEEE-754 bit pattern as a signed int64,
and the timestamp in milliseconds. -/
theorem writesToCrateRequest_shape (fmtFloat : Nat → String) (req : WriteRequest) :
    (List.Sorted (fun a b : String => a ≤ b) (unionNames req) ∧
      (unionNames req).Nodup ∧
      ∀ n, n ∈ unionNames req ↔ ∃ ts ∈ req.timeseries, ∃ p ∈ ts.labels, p.name = n) ∧
    (writesToCrateRequest fmtFloat req).stmt =
      "INSERT INTO metrics (" ++
        String.intercalate ", " ((unionNames req).map escapeLabelName) ++
        ", \"value\", \"valueRaw\", \"timestamp\") VALUES (" ++
        String.join (List.replicate (unionNames req).length "?, ") ++ " ?, ?, ?)" ∧
    (writesToCrateRequest fmtFloat req).bulkArgs =
      (req.timeseries.flatMap fun ts => ts.samples.map fun s =>
        ((unionNames req).map fun l =>
          match lookupLabel (metricOf ts.labels) l with
          | some v => if v = "" then Arg.null else Arg.str v
          | none => Arg.null) ++
        [Arg.str (fmtFloat s.valueBits), Arg.int (toInt64From s.valueBits),
          Arg.int s.timestampMs]) := by
  refine ⟨⟨unionNames_sorted req, unionNames_nodup req, fun n => mem_unionNames⟩, rfl, ?_⟩
  simp only [writesToCrateRequest, argOfLabel_eq]

theorem unionNames_eq_nil {req : WriteRequest}
    (h : ∀ ts ∈ req.timeseries, ts.labels = []) : unionNames req = [] := by
  unfold unionNames
  have : (req.timeseries.flatMap fun ts => ts.labels.map (·.name)) = [] := by
    rw [List.flatMap_eq_nil_iff]
    intro ts hts
    rw [h ts hts, List.map_nil]
  rw [this]
  rfl

/-- C10: a write batch in which no series carries any label still
produces a bulk insert whose column list begins with a bare comma
(`INSERT INTO metrics (, "value", "valueRaw", "timestamp") VALUES
( ?, ?, ?)`), with one argument row of exactly three values per sample. -/
theorem writesToCrateRequest_empty_union (fmtFloat : Nat → String) (req : WriteRequest)
    (h : ∀ ts ∈ req.timeseries, ts.labels = []) :
    (writesToCrateRequest fmtFloat req).stmt =
      "INSERT INTO metrics (, \"value\", \"valueRaw\", \"timestamp\") VALUES ( ?, ?, ?)" ∧
    (writesToCrateRequest fmtFloat req).bulkArgs =
      (req.timeseries.flatMap fun ts => ts.samples.map fun s =>
        [Arg.str (fmtFloat s.valueBits), Arg.int (toInt64From s.valueBits),
          Arg.int s.timestampMs]) ∧
    ∀ row ∈ (writesToCrateRequest fmtFloat req).bulkArgs, row.length = 3 := by
  have hu : unionNames req = [] := unionNames_eq_nil h
  refine ⟨?_, ?_, ?_⟩
  · simp only [writesToCrateRequest, hu, List.map_nil, List.length_nil,
      List.replicate_zero]
    rfl
  · simp [writesToCrateRequest, hu]
  · intro row hrow
    simp only [writesToCrateRequest, hu, List.mem_flatMap, List.mem_map] at hrow
    obtain ⟨ts, _, s, _, rfl⟩ := hrow
    rfl

theorem writesToCrateRequest_empty_union_witness :
    (writesToCrateRequest (fun _ => "1.000000") ⟨[⟨[], [⟨1, 5⟩]⟩]⟩).stmt =
      "INSERT INTO metrics (, \"value\", \"valueRaw\", \"timestamp\") VALUES ( ?, ?, ?)" ∧
    (writesToCrateRequest (fun _ => "1.000000") ⟨[⟨[], [⟨1, 5⟩]⟩]⟩).bulkArgs =
      (([⟨[], [⟨1, 5⟩]⟩] : List TimeSeries).flatMap fun ts => ts.samples.map fun s =>
        [Arg.str ((fun _ => "1.000000") s.valueBits), Arg.int (toInt64From s.valueBits),
          Arg.int s.timestampMs]) ∧
    ∀ row ∈ (writesToCrateRequest (fun _ => "1.000000") ⟨[⟨[], [⟨1, 5⟩]⟩]⟩).bulkArgs,
      row.length = 3 :=
  writesToCrateRequest_empty_union (fun _ => "1.000000") ⟨[⟨[], [⟨1, 5⟩]⟩]⟩
    (by intro ts hts; simp at hts; rw [hts])

/-! ## Theorems about the read path -/

/-- C6 (code bug): a `valueRaw` cell holding the numeric token `1.5` —
not a valid `int64` — is decoded with the `json.Number.Int64()` error
discarded, so the assembler silently returns a sample whose value bits
are `0` (the value `0.0`) instead of reporting a failure. -/
theorem responseToTimeseries_silent_zero_on_bad_valueRaw :
    responseToTimeseries ⟨["timestamp", "valueRaw"], [[.num "100", .num "1.5"]]⟩ =
      .ok [⟨[], [⟨0, 100⟩]⟩] := by
  rfl

/-- C7 (code bug): when the store answers a non-OK HTTP status, the
source executes `return nil, err` with `err` still `nil`, so `runQuery`
reports success with an empty series list instead of a non-nil error
(even though it increments the error counter on that path). -/
theorem runQuery_swallows_non_ok_status :
    runQuery (fun _ => .ok false) (fun _ => .resp 500 "irrelevant")
      (fun _ => .error "not decoded") ⟨[], 0, 0⟩ = .ok ([], none) := by
  rfl

/-! ## Label maps: `insertLabel` / `lookupLabel` -/

theorem mem_names_insertLabel {m : List LabelPair} {k v a : String} :
    a ∈ (insertLabel m k v).map (·.name) ↔ a ∈ m.map (·.name) ∨ a = k := by
  induction m with
  | nil => simp [insertLabel]
  | cons p rest ih =>
    by_cases hp : p.name = k
    · have he : insertLabel (p :: rest) k v = ⟨k, v⟩ :: rest := by
        simp [insertLabel, hp]
      rw [he, List.map_cons, List.map_cons, List.mem_cons, List.mem_cons, hp]
      tauto
    · have he : insertLabel (p :: rest) k v = p :: insertLabel rest k v := by
        simp [insertLabel, hp]
      rw [he, List.map_cons, List.map_cons, List.mem_cons, List.mem_cons, ih]
      tauto

theorem namesNodup_insertLabel {m : List LabelPair} (h : NamesNodup m) (k v : String) :
    NamesNodup (insertLabel m k v) := by
  induction m with
  | nil => simp [insertLabel, NamesNodup]
  | cons p rest ih =>
    rw [NamesNodup, List.map_cons, List.nodup_cons] at h
    by_cases hp : p.name = k
    · rw [NamesNodup]
      simp only [insertLabel, if_pos hp, List.map_cons, List.nodup_cons]
      exact ⟨by rw [← hp]; exact h.1, h.2⟩
    · rw [NamesNodup]
      simp only [insertLabel, if_neg hp, List.map_cons, List.nodup_cons]
      refine ⟨fun hmem => ?_, ih h.2⟩
      rcases mem_names_insertLabel.mp hmem with hmem | hmem
      · exact h.1 hmem
      · exact hp hmem

theorem lookupLabel_eq_some_iff {m : List LabelPair} (h : NamesNodup m) {k v : String} :
    lookupLabel m k = some v ↔ (⟨k, v⟩ : LabelPair) ∈ m := by
  induction m with
  | nil => simp [lookupLabel]
  | cons p rest ih =>
    rw [NamesNodup, List.map_cons, List.nodup_cons] at h
    by_cases hp : p.name = k
    · simp only [lookupLabel, if_pos hp, List.mem_cons]
      constructor
      · rintro hv
        cases hv
        left
        obtain ⟨pn, pv⟩ := p
        cases hp
        rfl
      · rintro (heq | hmem)
        · rw [← heq]
        · exact absurd (hp ▸ (List.mem_map.mpr ⟨_, hmem, rfl⟩)) h.1
    · simp only [lookupLabel, if_neg hp, List.mem_cons, ih h.2]
      constructor
      · exact Or.inr
      · rintro (heq | hmem)
        · rw [← heq] at hp
          exact absurd rfl hp
        · exact hmem

theorem perm_of_lookup_eq {m₁ m₂ : List LabelPair} (h₁ : NamesNodup m₁)
    (h₂ : NamesNodup m₂) (h : ∀ k, lookupLabel m₁ k = lookupLabel m₂ k) :
    List.Perm m₁ m₂ := by
  rw [List.perm_ext_iff_of_nodup (List.Nodup.of_map _ h₁) (List.Nodup.of_map _ h₂)]
  intro p
  obtain ⟨k, v⟩ := p
  rw [← lookupLabel_eq_some_iff h₁, ← lookupLabel_eq_some_iff h₂, h k]

/-! ## Canonical keys and series labels -/

theorem sortPairs_perm (m : List LabelPair) : List.Perm (sortPairs m) m :=
  List.perm_insertionSort _ _

theorem sortPairs_sorted (m : List LabelPair) : List.Sorted pairLe (sortPairs m) :=
  List.sorted_insertionSort _ _

theorem sortPairs_eq_of_perm {m₁ m₂ : List LabelPair} (h : List.Perm m₁ m₂) :
    sortPairs m₁ = sortPairs m₂ :=
  List.eq_of_perm_of_sorted
    ((sortPairs_perm m₁).trans (h.trans (sortPairs_perm m₂).symm))
    (sortPairs_sorted m₁) (sortPairs_sorted m₂)

theorem metricKey_eq_of_perm {m₁ m₂ : List LabelPair} (h : List.Perm m₁ m₂) :
    metricKey m₁ = metricKey m₂ := by
  unfold metricKey
  rw [sortPairs_eq_of_perm h]

theorem filterMap_lookup_names {m : List LabelPair} (h : NamesNodup m) :
    ((m.map (·.name)).filterMap fun k =>
      (lookupLabel m k).map fun v => (⟨k, v⟩ : LabelPair)) = m := by
  induction m with
  | nil => simp
  | cons p rest ih =>
    rw [NamesNodup, List.map_cons, List.nodup_cons] at h
    rw [List.map_cons, List.filterMap_cons]
    have hp : lookupLabel (p :: rest) p.name = some p.value := by
      simp [lookupLabel]
    rw [hp]
    have hcongr : (rest.map (·.name)).filterMap
        (fun k => (lookupLabel (p :: rest) k).map fun v => (⟨k, v⟩ : LabelPair)) =
        (rest.map (·.name)).filterMap
        (fun k => (lookupLabel rest k).map fun v => (⟨k, v⟩ : LabelPair)) := by
      apply List.filterMap_congr
      intro a ha
      have hne : p.name ≠ a := fun hc => h.1 (hc ▸ ha)
      simp [lookupLabel, hne]
    rw [hcongr, ih h.2]
    rfl

theorem labelsOf_perm {m : List LabelPair} (h : NamesNodup m) :
    List.Perm (labelsOf m) m := by
  unfold labelsOf
  have hperm := List.perm_insertionSort (fun a b : String => a ≤ b) (m.map (·.name))
  exact (hperm.filterMap _).trans (by rw [filterMap_lookup_names h])

theorem metricKey_labelsOf {m : List LabelPair} (h : NamesNodup m) :
    metricKey (labelsOf m) = metricKey m :=
  metricKey_eq_of_perm (labelsOf_perm h)

theorem sorted_filterMap_names (g : String → Option String) {ks : List String}
    (hs : List.Sorted (fun a b : String => a ≤ b) ks) :
    List.Sorted (fun p q : LabelPair => p.name ≤ q.name)
      (ks.filterMap fun k => (g k).map fun v => (⟨k, v⟩ : LabelPair)) := by
  induction ks with
  | nil => simp
  | cons k ks ih =>
    rw [List.sorted_cons] at hs
    rw [List.filterMap_cons]
    cases hg : g k with
    | none => exact ih hs.2
    | some v =>
      simp only [Option.map_some']
      rw [List.sorted_cons]
      refine ⟨fun p hp => ?_, ih hs.2⟩
      obtain ⟨k', hk', hfk'⟩ := List.mem_filterMap.mp hp
      cases hg' : g k' with
      | none => rw [hg'] at hfk'; exact absurd hfk' (by simp)
      | some v' =>
        rw [hg'] at hfk'
        simp only [Option.map_some', Option.some.injEq] at hfk'
        rw [← hfk']
        exact hs.1 k' hk'

theorem labelsOf_sorted (m : List LabelPair) :
    List.Sorted (fun p q : LabelPair => p.name ≤ q.name) (labelsOf m) :=
  sorted_filterMap_names (lookupLabel m) (List.sorted_insertionSort _ _)

/-! ## The row decoder keeps label names unique -/

theorem procCells_namesNodup (row : List Cell) :
    ∀ (cols : List String) (st : RowData), NamesNodup st.1 →
      ∀ d, procCells cols row st = .ok d → NamesNodup d.1 := by
  induction row with
  | nil =>
    intro cols st hst d h
    cases cols <;> (simp only [procCells, Except.ok.injEq] at h; rwa [← h])
  | cons c cs ih =>
    intro cols st hst d h
    cases cols with
    | nil => simp [procCells] at h
    | cons col cols' =>
      simp only [procCells] at h
      cases hcd : col.data with
      | nil => rw [hcd] at h; exact absurd h (by simp)
      | cons ch chs =>
        rw [hcd] at h
        simp only at h
        by_cases hl : ch = 'l'
        · rw [if_pos hl] at h
          cases c with
          | null => exact ih cols' st hst d h
          | str s => exact ih cols' _ (namesNodup_insertLabel hst _ _) d h
          | num tok => exact absurd h (by simp)
        · rw [if_neg hl] at h
          by_cases ht : col = "timestamp"
          · rw [if_pos ht] at h
            cases c with
            | num tok => exact ih cols' (st.1, st.2.1, (parseInt64 tok).1) hst d h
            | null => exact absurd h (by simp)
            | str s => exact absurd h (by simp)
          · rw [if_neg ht] at h
            by_cases hv : col = "valueRaw"
            · rw [if_pos hv] at h
              cases c with
              | num tok =>
                exact ih cols' (st.1, toUInt64From (parseInt64 tok).1, st.2.2) hst d h
              | null => exact absurd h (by simp)
              | str s => exact absurd h (by simp)
            · rw [if_neg hv] at h
              exact ih cols' st hst d h

/-! ## The series map (`map[string]*remote.TimeSeries`) -/

theorem lookupTS_eq_none_iff {acc : List (String × TimeSeries)} {k : String} :
    lookupTS acc k = none ↔ k ∉ acc.map Prod.fst := by
  induction acc with
  | nil => simp [lookupTS]
  | cons p rest ih =>
    obtain ⟨k', ts⟩ := p
    by_cases h : k' = k
    · simp [lookupTS, h]
    · simp [lookupTS, h, ih, Ne.symm h]

theorem mem_of_lookupTS_some {acc : List (String × TimeSeries)} {k : String}
    {ts : TimeSeries} (h : lookupTS acc k = some ts) : k ∈ acc.map Prod.fst := by
  by_contra hk
  rw [← lookupTS_eq_none_iff, h] at hk
  exact Option.noConfusion hk

theorem lookupTS_some_of_mem {acc : List (String × TimeSeries)} {k : String}
    (h : k ∈ acc.map Prod.fst) : ∃ ts, lookupTS acc k = some ts := by
  cases hl : lookupTS acc k with
  | none => rw [lookupTS_eq_none_iff] at hl; exact absurd h hl
  | some ts => exact ⟨ts, rfl⟩

theorem lookupTS_append {acc l : List (String × TimeSeries)} {k : String} :
    lookupTS (acc ++ l) k =
      match lookupTS acc k with
      | some ts => some ts
      | none => lookupTS l k := by
  induction acc with
  | nil => simp [lookupTS]
  | cons p rest ih =>
    obtain ⟨k', ts⟩ := p
    by_cases h : k' = k
    · simp [lookupTS, h]
    · simp [lookupTS, h, ih]

theorem map_fst_updateTS (acc : List (String × TimeSeries)) (k : String)
    (ts' : TimeSeries) : (updateTS acc k ts').map Prod.fst = acc.map Prod.fst := by
  induction acc with
  | nil => rfl
  | cons p rest ih =>
    obtain ⟨k', ts⟩ := p
    by_cases h : k' = k
    · simp [updateTS, h]
    · simp [updateTS, h, ih]

theorem lookupTS_updateTS_self {acc : List (String × TimeSeries)} {k : String}
    {ts ts' : TimeSeries} (h : lookupTS acc k = some ts) :
    lookupTS (updateTS acc k ts') k = some ts' := by
  induction acc with
  | nil => simp [lookupTS] at h
  | cons p rest ih =>
    obtain ⟨k0, t0⟩ := p
    by_cases hk : k0 = k
    · simp [updateTS, hk, lookupTS]
    · rw [lookupTS, if_neg hk] at h
      simp [updateTS, hk, lookupTS, ih h]

theorem lookupTS_updateTS_ne {acc : List (String × TimeSeries)} {k k' : String}
    {ts' : TimeSeries} (h : k' ≠ k) :
    lookupTS (updateTS acc k ts') k' = lookupTS acc k' := by
  induction acc with
  | nil => rfl
  | cons p rest ih =>
    obtain ⟨k0, t0⟩ := p
    by_cases hk : k0 = k
    · subst hk
      simp [updateTS, lookupTS, Ne.symm h]
    · simp [updateTS, hk, lookupTS, ih]

theorem lookupTS_accInsert_ne {acc : List (String × TimeSeries)} {d : RowData}
    {k : String} (h : rowKey d ≠ k) :
    lookupTS (accInsert acc d) k = lookupTS acc k := by
  unfold accInsert
  cases hl : lookupTS acc (rowKey d) with
  | some ts => exact lookupTS_updateTS_ne (Ne.symm h)
  | none =>
    rw [lookupTS_append]
    cases hk : lookupTS acc k with
    | some ts => rfl
    | none => simp [lookupTS, h]

theorem lookupTS_accInsert_self (acc : List (String × TimeSeries)) (d : RowData) :
    lookupTS (accInsert acc d) (rowKey d) =
      some (match lookupTS acc (rowKey d) with
        | some ts => ⟨ts.labels, ts.samples ++ [sampleOf d]⟩
        | none => ⟨labelsOf d.1, [sampleOf d]⟩) := by
  unfold accInsert
  cases hl : lookupTS acc (rowKey d) with
  | some ts => exact lookupTS_updateTS_self hl
  | none =>
    rw [lookupTS_append, hl]
    simp [lookupTS]

theorem mem_map_fst_accInsert {acc : List (String × TimeSeries)} {d : RowData}
    {k : String} :
    k ∈ (accInsert acc d).map Prod.fst ↔ k ∈ acc.map Prod.fst ∨ k = rowKey d := by
  unfold accInsert
  cases hl : lookupTS acc (rowKey d) with
  | some ts =>
    rw [map_fst_updateTS]
    have hmem : rowKey d ∈ acc.map Prod.fst := mem_of_lookupTS_some hl
    constructor
    · exact Or.inl
    · rintro (h | rfl)
      · exact h
      · exact hmem
  | none =>
    rw [List.map_append]
    simp [List.mem_append]

theorem nodup_map_fst_accInsert {acc : List (String × TimeSeries)} {d : RowData}
    (h : (acc.map Prod.fst).Nodup) : ((accInsert acc d).map Prod.fst).Nodup := by
  unfold accInsert
  cases hl : lookupTS acc (rowKey d) with
  | some ts => rw [map_fst_updateTS]; exact h
  | none =>
    rw [List.map_append]
    rw [lookupTS_eq_none_iff] at hl
    simp [List.nodup_append, h, hl]

theorem mem_map_fst_foldl (ds : List RowData) :
    ∀ (acc : List (String × TimeSeries)) (k : String),
      k ∈ ((ds.foldl accInsert acc).map Prod.fst) ↔
        k ∈ acc.map Prod.fst ∨ k ∈ ds.map rowKey := by
  induction ds with
  | nil => intro acc k; simp
  | cons d ds ih =>
    intro acc k
    rw [List.foldl_cons, ih, mem_map_fst_accInsert, List.map_cons, List.mem_cons]
    tauto

theorem nodup_map_fst_foldl (ds : List RowData) :
    ∀ acc, (acc.map Prod.fst).Nodup → ((ds.foldl accInsert acc).map Prod.fst).Nodup := by
  induction ds with
  | nil => intro acc h; exact h
  | cons d ds ih => intro acc h; exact ih _ (nodup_map_fst_accInsert h)

/-- What the row fold holds at each key: the samples of all rows with
that key in row order, under the labels of the first such row. -/
theorem lookupTS_foldl (ds : List RowData) :
    ∀ (acc : List (String × TimeSeries)) (k : String),
      lookupTS (ds.foldl accInsert acc) k =
        match lookupTS acc k with
        | some ts =>
          some ⟨ts.labels, ts.samples ++ ((ds.filter fun d => rowKey d = k).map sampleOf)⟩
        | none =>
          match ds.find? (fun d => rowKey d = k) with
          | some d₀ =>
            some ⟨labelsOf d₀.1, ((ds.filter fun d => rowKey d = k).map sampleOf)⟩
          | none => none := by
  induction ds with
  | nil =>
    intro acc k
    cases hl : lookupTS acc k <;> simp [hl]
  | cons d ds ih =>
    intro acc k
    rw [List.foldl_cons, ih (accInsert acc d) k]
    by_cases hdk : rowKey d = k
    · subst hdk
      rw [lookupTS_accInsert_self acc d]
      cases hl : lookupTS acc (rowKey d) with
      | some ts =>
        simp [List.filter_cons, List.find?_cons]
      | none =>
        simp [List.filter_cons, List.find?_cons]
    · rw [lookupTS_accInsert_ne hdk]
      cases hl : lookupTS acc k with
      | some ts =>
        simp [List.filter_cons, hdk]
      | none =>
        simp [List.filter_cons, List.find?_cons, hdk]

/-! ## Putting the assembler together -/

theorem buildAcc_eq (cols : List String) (rows : List (List Cell)) :
    ∀ acc, buildAcc cols rows acc =
      (rowDataAll cols rows).map fun ds => ds.foldl accInsert acc := by
  induction rows with
  | nil => intro acc; rfl
  | cons row rest ih =>
    intro acc
    simp only [buildAcc, rowDataAll]
    cases hp : procCells cols row ([], 0, 0) with
    | error e => simp [bind, Except.bind, Except.map]
    | ok d =>
      simp only [bind, Except.bind, ih (accInsert acc d)]
      cases hr : rowDataAll cols rest with
      | error e => simp [Except.map]
      | ok ds => simp [Except.map]

theorem rowDataAll_namesNodup (cols : List String) (rows : List (List Cell)) :
    ∀ ds, rowDataAll cols rows = .ok ds → ∀ d ∈ ds, NamesNodup d.1 := by
  induction rows with
  | nil =>
    intro ds h d hd
    simp only [rowDataAll, Except.ok.injEq] at h
    rw [← h] at hd
    exact absurd hd (List.not_mem_nil d)
  | cons row rest ih =>
    intro ds h d hd
    simp only [rowDataAll, bind, Except.bind] at h
    cases hp : procCells cols row ([], 0, 0) with
    | error e => rw [hp] at h; exact absurd h (by simp)
    | ok d0 =>
      rw [hp] at h
      cases hr : rowDataAll cols rest with
      | error e => rw [hr] at h; exact absurd h (by simp)
      | ok ds' =>
        rw [hr] at h
        simp only [Except.ok.injEq] at h
        rw [← h] at hd
        rcases List.mem_cons.mp hd with rfl | hmem
        · exact procCells_namesNodup row cols ([], 0, 0) (by simp [NamesNodup]) d hp
        · exact ih ds' hr d hmem

theorem map_seriesKey_filterMap (acc : List (String × TimeSeries)) :
    ∀ ks : List String,
      (∀ k ∈ ks, ∃ ts, lookupTS acc k = some ts ∧ seriesKey ts = k) →
      (ks.filterMap (lookupTS acc)).map seriesKey = ks := by
  intro ks
  induction ks with
  | nil => intro _; rfl
  | cons k ks ih =>
    intro h
    obtain ⟨ts, hts, hkey⟩ := h k (List.mem_cons_self k ks)
    rw [List.filterMap_cons, hts, List.map_cons, hkey,
      ih fun k' hk' => h k' (List.mem_cons_of_mem k hk')]

/-- C4: whenever the assembler succeeds, the output contains exactly one
series per distinct canonical key among the decoded rows — rows whose
non-null prefixed label columns decode to the same label set share one
key, hence one series — each series' samples are the samples of its rows
in row order, each series' labels are sorted by name, and the series
sequence itself is sorted by the canonical key, so the output is
deterministic. -/
theorem responseToTimeseries_grouping (resp : CrateResponse) (out : List TimeSeries)
    (h : responseToTimeseries resp = .ok out) :
    ∃ ds, rowDataAll resp.cols resp.rows = .ok ds ∧
      (out.map seriesKey).Nodup ∧
      List.Sorted (fun a b : String => a ≤ b) (out.map seriesKey) ∧
      (∀ ts ∈ out, List.Sorted (fun p q : LabelPair => p.name ≤ q.name) ts.labels) ∧
      (∀ ts ∈ out,
        ts.samples = ((ds.filter fun d => rowKey d = seriesKey ts).map sampleOf)) ∧
      (∀ d ∈ ds, rowKey d ∈ out.map seriesKey) ∧
      (∀ d₁ ∈ ds, ∀ d₂ ∈ ds,
        (∀ k, lookupLabel d₁.1 k = lookupLabel d₂.1 k) → rowKey d₁ = rowKey d₂) := by
  unfold responseToTimeseries at h
  rw [buildAcc_eq] at h
  cases hr : rowDataAll resp.cols resp.rows with
  | error e => rw [hr] at h; exact absurd h (by simp [bind, Except.bind, Except.map])
  | ok ds =>
    rw [hr] at h
    simp only [Except.map, bind, Except.bind, Except.ok.injEq] at h
    set acc := ds.foldl accInsert [] with hacc
    have hout : out =
        (List.insertionSort (fun a b : String => a ≤ b)
          (acc.map Prod.fst)).filterMap (lookupTS acc) := h.symm
    have hnodupkeys : (acc.map Prod.fst).Nodup :=
      nodup_map_fst_foldl ds [] (by simp)
    have hmemkeys : ∀ k, k ∈ acc.map Prod.fst ↔ k ∈ ds.map rowKey := by
      intro k
      rw [hacc, mem_map_fst_foldl]
      simp
    have hdsnodup : ∀ d ∈ ds, NamesNodup d.1 :=
      rowDataAll_namesNodup resp.cols resp.rows ds hr
    have hchar : ∀ k ∈ acc.map Prod.fst,
        ∃ d₀, ds.find? (fun d => rowKey d = k) = some d₀ ∧ rowKey d₀ = k ∧
          lookupTS acc k =
            some ⟨labelsOf d₀.1, ((ds.filter fun d => rowKey d = k).map sampleOf)⟩ := by
      intro k hk
      have hmem : k ∈ ds.map rowKey := (hmemkeys k).mp hk
      obtain ⟨d', hd', hkd⟩ := List.mem_map.mp hmem
      have hfind : (ds.find? (fun d => rowKey d = k)).isSome :=
        List.find?_isSome.mpr ⟨d', hd', by simp [hkd]⟩
      cases hf : ds.find? (fun d => rowKey d = k) with
      | none => rw [hf] at hfind; exact absurd hfind (by simp)
      | some d₀ =>
        have hp := List.find?_some hf
        refine ⟨d₀, rfl, of_decide_eq_true hp, ?_⟩
        rw [hacc, lookupTS_foldl ds [] k]
        simp only [lookupTS]
        rw [hf]
    have hkeyOf : ∀ k ∈ acc.map Prod.fst,
        ∃ ts, lookupTS acc k = some ts ∧ seriesKey ts = k := by
      intro k hk
      obtain ⟨d₀, hf, hkd, hlook⟩ := hchar k hk
      refine ⟨_, hlook, ?_⟩
      show metricKey (labelsOf d₀.1) = k
      rw [metricKey_labelsOf (hdsnodup d₀ (List.mem_of_find?_eq_some hf))]
      exact hkd
    have houtkeys : out.map seriesKey =
        List.insertionSort (fun a b : String => a ≤ b) (acc.map Prod.fst) := by
      rw [hout]
      exact map_seriesKey_filterMap acc _
        fun k hk => hkeyOf k ((List.mem_insertionSort _).mp hk)
    refine ⟨ds, rfl, ?_, ?_, ?_, ?_, ?_, ?_⟩
    · rw [houtkeys]
      exact (List.perm_insertionSort _ _).nodup_iff.mpr hnodupkeys
    · rw [houtkeys]
      exact List.sorted_insertionSort _ _
    · intro ts hts
      rw [hout] at hts
      obtain ⟨k, _, hlk⟩ := List.mem_filterMap.mp hts
      obtain ⟨d₀, _, _, hlook⟩ := hchar k (mem_of_lookupTS_some hlk)
      rw [hlk] at hlook
      cases hlook
      exact labelsOf_sorted _
    · intro ts hts
      rw [hout] at hts
      obtain ⟨k, _, hlk⟩ := List.mem_filterMap.mp hts
      have hk : k ∈ acc.map Prod.fst := mem_of_lookupTS_some hlk
      obtain ⟨d₀, hf, hkd, hlook⟩ := hchar k hk
      obtain ⟨ts', hlk', hkey'⟩ := hkeyOf k hk
      rw [hlk] at hlook hlk'
      cases hlook
      cases hlk'
      rw [hkey']
    · intro d hd
      rw [houtkeys, List.mem_insertionSort, hmemkeys]
      exact List.mem_map.mpr ⟨d, hd, rfl⟩
    · intro d₁ hd₁ d₂ hd₂ heq
      exact metricKey_eq_of_perm
        (perm_of_lookup_eq (hdsnodup d₁ hd₁) (hdsnodup d₂ hd₂) heq)

theorem responseToTimeseries_grouping_witness :
    ∃ ds, rowDataAll ["la", "timestamp", "valueRaw"]
        [[.str "x", .num "1", .num "5"], [.str "x", .num "2", .num "6"]] = .ok ds ∧
      (([⟨[⟨"a", "x"⟩], [⟨5, 1⟩, ⟨6, 2⟩]⟩] : List TimeSeries).map seriesKey).Nodup ∧
      List.Sorted (fun a b : String => a ≤ b)
        (([⟨[⟨"a", "x"⟩], [⟨5, 1⟩, ⟨6, 2⟩]⟩] : List TimeSeries).map seriesKey) ∧
      (∀ ts ∈ ([⟨[⟨"a", "x"⟩], [⟨5, 1⟩, ⟨6, 2⟩]⟩] : List TimeSeries),
        List.Sorted (fun p q : LabelPair => p.name ≤ q.name) ts.labels) ∧
      (∀ ts ∈ ([⟨[⟨"a", "x"⟩], [⟨5, 1⟩, ⟨6, 2⟩]⟩] : List TimeSeries),
        ts.samples = ((ds.filter fun d => rowKey d = seriesKey ts).map sampleOf)) ∧
      (∀ d ∈ ds,
        rowKey d ∈ ([⟨[⟨"a", "x"⟩], [⟨5, 1⟩, ⟨6, 2⟩]⟩] : List TimeSeries).map seriesKey) ∧
      (∀ d₁ ∈ ds, ∀ d₂ ∈ ds,
        (∀ k, lookupLabel d₁.1 k = lookupLabel d₂.1 k) → rowKey d₁ = rowKey d₂) :=
  responseToTimeseries_grouping
    ⟨["la", "timestamp", "valueRaw"],
      [[.str "x", .num "1", .num "5"], [.str "x", .num "2", .num "6"]]⟩
    [⟨[⟨"a", "x"⟩], [⟨5, 1⟩, ⟨6, 2⟩]⟩] (by rfl)
